import Mathlib

/-!
# Verification of the pmm-import-export-tool transfer package

This development shallowly embeds the `pkg/transferer` package (files
`load.go` and `transferer.go`) in Lean 4 and proves properties of the
embedding.

Modelling conventions:
* Go strings are modelled as `List Char` (`GoString`); the inputs of
  interest are ASCII, so byte-level and rune-level views coincide.
* Go `float64` values are modelled as exact rationals (`Rat`).  The claims
  under study concern comparison boundaries (`>=` versus `>`), which the
  rational order reflects faithfully; floating-point rounding is out of
  scope.  Accordingly `strconv.ParseFloat` is modelled on the finite
  decimal fragment of its grammar (optional sign, decimal mantissa with an
  optional fraction, optional decimal exponent); hexadecimal floats,
  `Inf`/`NaN` and digit-group underscores are outside the model.
* Side effects (HTTP fetches, channel sends, the tar writer) are replaced
  by explicit inputs/outputs: a metric fetch becomes a function
  `Threshold → Option Rat` (`Option.none` models a network/parse error), a
  polling run becomes a fold over a list of such fetch functions, and the
  archive becomes a list of entries.
-/

/-- Go strings, viewed as lists of characters. -/
abbrev GoString := List Char

/-- The whitespace predicate used by `strings.TrimSpace`, restricted to the
ASCII space characters (the inputs of interest contain no Unicode spaces). -/
def isGoSpace (c : Char) : Bool :=
  c = ' ' || c = '\t' || c = '\n' || c = '\x0d' || c = '\x0b' || c = '\x0c'

/-- Model of `strings.TrimSpace`: drop leading and trailing whitespace. -/
def trimSpace (s : GoString) : GoString :=
  ((s.dropWhile isGoSpace).reverse.dropWhile isGoSpace).reverse

/-- Model of `strings.Split` with a one-character separator: split around
every occurrence of the separator.  The result is always nonempty. -/
def splitOnChar (c : Char) : GoString → List GoString
  | [] => [[]]
  | x :: xs =>
    match splitOnChar c xs with
    | [] => [[]]
    | p :: ps => if x = c then [] :: p :: ps else (x :: p) :: ps

/-- Numeric value of a list of decimal digits. -/
def digitsToNat (l : List Char) : Nat :=
  l.foldl (fun a c => a * 10 + (c.toNat - 48)) 0

/-- Whether a list is a nonempty block of decimal digits. -/
def isDigits (l : List Char) : Bool :=
  !l.isEmpty && l.all Char.isDigit

/-- Split an optional leading sign off a numeric literal. -/
def splitSign : GoString → Int × GoString
  | '+' :: r => (1, r)
  | '-' :: r => (-1, r)
  | r => (1, r)

/-- Break a list at the first character satisfying `p`; the second
component is `some` of the remainder after that character when one exists. -/
def breakAt (p : Char → Bool) : GoString → GoString × Option GoString
  | [] => ([], Option.none)
  | c :: cs =>
    if p c then ([], Option.some cs)
    else
      let r := breakAt p cs
      (c :: r.1, r.2)

/-- Model of `strconv.ParseFloat` on the finite decimal fragment of its
grammar (see the module comment): `Option.none` models a parse error. -/
def goParseFloat (s : GoString) : Option Rat :=
  let sg := splitSign s
  let me := breakAt (fun c => c = 'e' || c = 'E') sg.2
  let int_frac := breakAt (fun c => c = '.') me.1
  let intPart := int_frac.1
  let fracPart := (int_frac.2).getD []
  let digs := intPart ++ fracPart
  if isDigits digs && intPart.all Char.isDigit && fracPart.all Char.isDigit then
    let mantVal : Rat := ((sg.1 * (digitsToNat digs : Int) : Int) : Rat) / ((10 ^ fracPart.length : Nat) : Rat)
    match me.2 with
    | Option.none => Option.some mantVal
    | Option.some e =>
      let es := splitSign e
      if isDigits es.2 then
        let n := digitsToNat es.2
        Option.some (if es.1 = 1 then mantVal * 10 ^ n else mantVal / 10 ^ n)
      else Option.none
  else Option.none

/-! ## load.go: load statuses and thresholds -/

/-- `LoadStatus` from load.go: `iota` enumeration NONE, OK, WAIT, TERMINATE. -/
inductive LoadStatus
  | none
  | ok
  | wait
  | terminate
deriving DecidableEq, Repr

/-- `MaxWaitStatusInSequence` from load.go. -/
def MaxWaitStatusInSequence : Nat := 10

/-- `ThresholdKey` from load.go (a Go string type alias). -/
abbrev ThresholdKey := GoString

/-- `ThresholdCPU` from load.go. -/
def ThresholdCPU : ThresholdKey := "CPU".toList

/-- `ThresholdRAM` from load.go. -/
def ThresholdRAM : ThresholdKey := "RAM".toList

/-- `AllThresholdKeys` from load.go. -/
def AllThresholdKeys : List ThresholdKey := [ThresholdCPU, ThresholdRAM]

/-- `IsValidThresholdKey` from load.go: linear scan over `AllThresholdKeys`. -/
def IsValidThresholdKey (v : GoString) : Bool :=
  AllThresholdKeys.any (fun k => k = v)

/-- `getQueryByThresholdKey` from load.go.  The PromQL query texts are
treated as opaque strings (per the spec they are out of scope) and are
abbreviated here; only their distinctness and fixedness per key matter.
The Go function panics on an undefined key; that branch is unreachable
from `ParseThresholdList`, which only calls it at members of
`AllThresholdKeys`, and is modelled by a marker string. -/
def getQueryByThresholdKey (k : ThresholdKey) : GoString :=
  if k = ThresholdCPU then
    "100 - (avg by (instance) (rate(node_cpu_seconds_total[5s])) * 100)".toList
  else if k = ThresholdRAM then
    "100 * (1 - (free + cached + buffers) / total)".toList
  else
    "BUG: undefined threshold key".toList

/-- `Threshold` from load.go. -/
structure Threshold where
  Key : ThresholdKey
  Query : GoString
  MaxLoad : Rat
  CriticalLoad : Rat
deriving DecidableEq, Repr

/-! ## load.go: threshold spec parsing -/

/-- The threshold map built by `parseThresholdValues` (`map[string]float64`
in Go, with absent keys mapped to `Option.none`). -/
def ThresholdMap := GoString → Option Rat

/-- The empty (nil) Go map. -/
def emptyThresholdMap : ThresholdMap := fun _ => Option.none

/-- Go map insertion `res[k] = v`: a later binding overwrites an earlier
one for the same key. -/
def mapInsert (m : ThresholdMap) (k : GoString) (x : Rat) : ThresholdMap :=
  fun q => if q = k then Option.some x else m q

/-- One iteration of the pair loop of `parseThresholdValues`: detect the
separator (`:` when present, otherwise `=`), require exactly two fields,
validate the trimmed key, parse the trimmed value. -/
def parsePair (p : GoString) : Except GoString (ThresholdKey × Rat) :=
  let separator : Char := if p.contains ':' then ':' else '='
  match splitOnChar separator p with
  | [k0, v0] =>
    let k := trimSpace k0
    if !IsValidThresholdKey k then
      .error ("undefined key: ".toList ++ k)
    else
      match goParseFloat (trimSpace v0) with
      | Option.none => .error "can\x27t parse number".toList
      | Option.some v => .ok (k, v)
  | _ => .error "invalid syntax: must be K=V or K:V".toList

/-- Fold of `parsePair` over the comma-separated pairs, accumulating the
map; the first failing pair aborts with its error, as in Go. -/
def parsePairs (m : ThresholdMap) : List GoString → Except GoString ThresholdMap
  | [] => .ok m
  | p :: rest =>
    match parsePair p with
    | .error e => .error e
    | .ok kv => parsePairs (mapInsert m kv.1 kv.2) rest

/-- The comma-split pair list of a spec string (after the leading
`strings.TrimSpace` of `parseThresholdValues`). -/
def splitPairs (s : GoString) : List GoString :=
  splitOnChar ',' (trimSpace s)

/-- `parseThresholdValues` from load.go: an all-whitespace spec yields the
nil map; otherwise each comma-separated pair is parsed and inserted. -/
def parseThresholdValues (v : GoString) : Except GoString ThresholdMap :=
  if trimSpace v = [] then .ok emptyThresholdMap
  else parsePairs emptyThresholdMap (splitPairs v)

/-- `ParseThresholdList` from load.go: parse the max and critical specs,
then emit one `Threshold` per key of `AllThresholdKeys` (in that fixed
order) that occurs in at least one of the two maps; a bound absent from its
map is the Go zero value `0`. -/
def ParseThresholdList (max critical : GoString) : Except GoString (List Threshold) :=
  match parseThresholdValues max with
  | .error e => .error ("invalid max load list: ".toList ++ e)
  | .ok maxV =>
    match parseThresholdValues critical with
    | .error e => .error ("invalid critical load list: ".toList ++ e)
    | .ok criticalV =>
      .ok (AllThresholdKeys.foldl
        (fun acc k =>
          if maxV k = Option.none ∧ criticalV k = Option.none then acc
          else acc ++ [{ Key := k, Query := getQueryByThresholdKey k,
                         MaxLoad := (maxV k).getD 0,
                         CriticalLoad := (criticalV k).getD 0 }]) [])

/-! ## load.go: metric response validation -/

/-- A JSON value as produced by `encoding/json` into `interface\x7b\x7d`.
`getValidValue` only ever asserts the string case, so composite values
(arrays and objects) are represented by an opaque constructor. -/
inductive JsonValue
  | jnull
  | jbool (b : Bool)
  | jnum (x : Rat)
  | jstr (s : GoString)
  | jcomposite
deriving DecidableEq, Repr

/-- One element of the `result` array of `metricResponse`. -/
structure MetricResult where
  Instance : GoString
  Value : List JsonValue
deriving DecidableEq, Repr

/-- The `data` object of `metricResponse`. -/
structure MetricData where
  ResultType : GoString
  Result : List MetricResult
deriving DecidableEq, Repr

/-- `metricResponse` from load.go. -/
structure MetricResponse where
  Status : GoString
  Data : MetricData
deriving DecidableEq, Repr

/-- `metricResponse.getValidValue` from load.go: require status
"success", a nonempty result list, a two-element value array on the first
result, a string second element, and a parseable float inside it. -/
def getValidValue (r : MetricResponse) : Except GoString Rat :=
  if r.Status ≠ "success".toList then .error "status is not success".toList
  else
    match r.Data.Result with
    | [] => .error "empty result".toList
    | first :: _ =>
      match first.Value with
      | [_, v1] =>
        match v1 with
        | .jstr s =>
          match goParseFloat s with
          | Option.some val => .ok val
          | Option.none => .error "parsing value error".toList
        | _ => .error "value is not string".toList
      | _ => .error "unexpected number of values".toList

/-! ## load.go: the load checker state machine -/

/-- The state of `LoadChecker` (the client and URL are absorbed into the
fetch function passed to each cycle). -/
structure LoadChecker where
  thresholds : List Threshold
  latestStatus : LoadStatus
  waitStatusCounter : Nat
deriving Repr

/-- `LoadChecker.GetLatestStatus` from load.go (the lock only guards
concurrent access and has no sequential content). -/
def GetLatestStatus (lc : LoadChecker) : LoadStatus :=
  lc.latestStatus

/-- The threshold loop of `LoadChecker.checkMetricsLoad`: `fetch` models
`getMetricCurrentValue`, with `Option.none` standing for a network or
parse error, which aborts the whole check (the Go function returns
`(LoadStatusNone, err)` there, modelled as `Option.none` overall). -/
def checkMetricsLoadAux (fetch : Threshold → Option Rat) :
    List Threshold → LoadStatus → Option LoadStatus
  | [], loadStatus => Option.some loadStatus
  | t :: ts, loadStatus =>
    match fetch t with
    | Option.none => Option.none
    | Option.some value =>
      if value ≥ t.CriticalLoad then Option.some .terminate
      else if value ≥ t.MaxLoad then checkMetricsLoadAux fetch ts .wait
      else checkMetricsLoadAux fetch ts loadStatus

/-- `LoadChecker.checkMetricsLoad` from load.go: the loop starts from
candidate status OK. -/
def checkMetricsLoad (fetch : Threshold → Option Rat) (lc : LoadChecker) :
    Option LoadStatus :=
  checkMetricsLoadAux fetch lc.thresholds .ok

/-- The status of one cycle after the error fold of
`LoadChecker.updateStatus`: a failed check is treated as WAIT. -/
def cycleStatus (lc : LoadChecker) (fetch : Threshold → Option Rat) : LoadStatus :=
  (checkMetricsLoad fetch lc).getD .wait

/-- `LoadChecker.updateStatus` from load.go: fold errors into WAIT, count
consecutive WAIT results, escalate to TERMINATE once the counter exceeds
`MaxWaitStatusInSequence`, reset the counter on any non-WAIT result, and
publish the status. -/
def updateStatus (lc : LoadChecker) (fetch : Threshold → Option Rat) : LoadChecker :=
  let status := cycleStatus lc fetch
  if status = .wait then
    let counter := lc.waitStatusCounter + 1
    { lc with
      latestStatus := if counter > MaxWaitStatusInSequence then .terminate else status,
      waitStatusCounter := counter }
  else
    { lc with latestStatus := status, waitStatusCounter := 0 }

/-- The `LoadChecker` literal built by `NewLoadChecker` before its first
synchronous check: the fail-safe initial status is WAIT. -/
def initialLoadChecker (thresholds : List Threshold) : LoadChecker :=
  { thresholds := thresholds, latestStatus := .wait, waitStatusCounter := 0 }

/-- `NewLoadChecker` from load.go: construct the fail-safe initial state
and run one synchronous `updateStatus` cycle. -/
def NewLoadChecker (thresholds : List Threshold) (fetch : Threshold → Option Rat) :
    LoadChecker :=
  updateStatus (initialLoadChecker thresholds) fetch

/-- A run of the background polling loop: one `updateStatus` per tick, with
the per-cycle fetch outcomes given by the list. -/
def runUpdates (lc : LoadChecker) (fs : List (Threshold → Option Rat)) : LoadChecker :=
  fs.foldl updateStatus lc

/-! ## Path utilities (Go `path` package) -/

/-- Index of the last occurrence of a character, as used by
`strings.LastIndex` inside `path.Split` (`Option.none` for the Go result
`-1`). -/
def lastIndexOf (c : Char) : GoString → Option Nat
  | [] => Option.none
  | x :: xs =>
    match lastIndexOf c xs with
    | Option.some n => Option.some (n + 1)
    | Option.none => if x = c then Option.some 0 else Option.none

/-- Go `path.Split`: split after the final slash; with no slash the
directory part is empty. -/
def goPathSplit (p : GoString) : GoString × GoString :=
  match lastIndexOf '/' p with
  | Option.none => ([], p)
  | Option.some n => (p.take (n + 1), p.drop (n + 1))

/-- A Go prefix slice `s[:n]` with an `int` bound: `Option.none` models the
out-of-range panic (`n < 0` or `n > len(s)`). -/
def goSliceUpTo (s : GoString) (n : Int) : Option GoString :=
  if 0 ≤ n ∧ n ≤ (s.length : Int) then Option.some (s.take n.toNat) else Option.none

/-- The element processing of Go `path.Clean`, on the slash-split segments:
skip empty and `.` segments, let `..` pop a non-`..` stack top (or vanish at
the root), and push everything else.  `out` is the stack of kept segments in
reverse order. -/
def cleanSegments (rooted : Bool) (out : List GoString) : List GoString → List GoString
  | [] => out
  | seg :: rest =>
    if seg = [] ∨ seg = ['.'] then cleanSegments rooted out rest
    else if seg = ['.', '.'] then
      match out with
      | [] => if rooted then cleanSegments rooted [] rest
              else cleanSegments rooted [['.', '.']] rest
      | top :: out2 =>
        if top = ['.', '.'] then cleanSegments rooted (['.', '.'] :: top :: out2) rest
        else cleanSegments rooted out2 rest
    else cleanSegments rooted (seg :: out) rest

/-- Join a segment list with slashes. -/
def joinSegments : List GoString → GoString
  | [] => []
  | [x] => x
  | x :: y :: rest => x ++ '/' :: joinSegments (y :: rest)

/-- Go `path.Clean` (functional formulation over the slash-split segment
list). -/
def goPathClean (p : GoString) : GoString :=
  if p = [] then ['.']
  else
    let rooted := p.head? = Option.some '/'
    let out := (cleanSegments rooted [] (splitOnChar '/' p)).reverse
    if out = [] then (if rooted then ['/'] else ['.'])
    else if rooted then '/' :: joinSegments out
    else joinSegments out

/-- Go `path.Join` on two elements: skip leading empty elements, join the
rest with a slash and clean the result. -/
def goPathJoin (a b : GoString) : GoString :=
  if a ≠ [] then goPathClean (a ++ '/' :: b)
  else if b ≠ [] then goPathClean b
  else []

/-! ## The dump package interface

The `dump` package itself is not among the sources; the definitions below
follow the spec's data model and interface sections. -/

/-- Modelled from the spec: the backend-type enumeration of the missing
`dump` package.  The spec says backend type names are "a closed, stable set
of string identifiers (one per Backend Adapter)" over the two adapters (a
time-series store and a column store), with an undefined marker for
unrecognized names (`dump.UndefinedSource`). -/
inductive SourceType
  | victoriaMetrics
  | clickHouse
  | undefined
deriving DecidableEq, Repr

/-- Modelled from the spec: the per-adapter stable string identifier
(Go `SourceType.String()`), used as the per-backend directory name in the
archive. -/
def SourceType.str : SourceType → GoString
  | .victoriaMetrics => "vm".toList
  | .clickHouse => "ch".toList
  | .undefined => "undefined".toList

/-- Modelled from the spec: `dump.ParseSourceType` maps a directory-encoded
backend name back to its type, with unrecognized names mapping to the
undefined marker. -/
def ParseSourceType (s : GoString) : SourceType :=
  if s = "vm".toList then .victoriaMetrics
  else if s = "ch".toList then .clickHouse
  else .undefined

/-- Modelled from the spec: `dump.MetaFilename`, the fixed reserved
filename of the archive metadata entry.  Its concrete value is immaterial
to the claims; only its fixedness is used. -/
def MetaFilename : GoString := "meta.json".toList

/-- Modelled from the spec: `dump.ChunkMeta`, "an opaque descriptor
(backend type + identifying fields)". -/
structure ChunkMeta where
  Source : SourceType
  tag : Nat
deriving DecidableEq, Repr

/-- Modelled from the spec: `dump.Chunk` = \x7bSource backend-type,
Filename, Content bytes\x7d (the field names appear at the use sites in
transferer.go). -/
structure Chunk where
  Source : SourceType
  Filename : GoString
  Content : List UInt8
deriving DecidableEq, Repr

/-- Modelled from the spec: `dump.Meta` = \x7bMaxChunkSize: largest chunk
content size seen, plus versioning fields treated as opaque\x7d. -/
structure Meta where
  MaxChunkSize : Int
  Version : GoString
deriving DecidableEq, Repr

/-- Modelled from the spec: the Backend Adapter (`dump.Source`) interface.
`readChunk` materializes a chunk during export; `writeChunk` consumes an
entry's bytes during import and `finalizeWrites` flushes them, both
returning `Option.some` of an error message on failure. -/
structure Source where
  type : SourceType
  readChunk : ChunkMeta → Except GoString Chunk
  writeChunk : GoString → List UInt8 → Option GoString
  finalizeWrites : Option GoString

/-- `Transferer.sourceByType` from transferer.go: first configured source
with the matching type. -/
def sourceByType (sources : List Source) (st : SourceType) : Option Source :=
  sources.find? (fun s => s.type = st)

/-! ## transferer.go: export reader workers -/

/-- The outcome of one iteration of `Transferer.readChunksFromSource`:
return with an error, sleep and retry (WAIT), return success (pool
exhausted), or send a chunk to the channel and continue. -/
inductive ReadIterOutcome
  | stopErr (msg : GoString)
  | sleepRetry
  | stopOk
  | pushed (c : Chunk)
deriving DecidableEq, Repr

/-- Error message of a cancelled context (`ctx.Err()`). -/
def ctxCanceledMsg : GoString := "context canceled".toList

/-- Error message for the TERMINATE status branch. -/
def terminateMsg : GoString := "got terminate load status".toList

/-- Error message for the defensive default status branch. -/
def unknownStatusMsg : GoString := "unknown load status".toList

/-- Error message for an unconfigured source during export. -/
def noSourceReadMsg : GoString := "failed to find source to read chunk".toList

/-- Error prefix for a failed chunk read (`errors.Wrap`). -/
def readFailMsg : GoString := "failed to read chunk: ".toList

/-- One iteration of the loop of `Transferer.readChunksFromSource`.  The
pool is modelled as the list of chunk descriptors it has yet to yield;
the returned list is the pool after the iteration, making consumption
explicit.  The status is the value read from the load checker at the top
of the iteration. -/
def readChunksIteration (cancelled : Bool) (status : LoadStatus)
    (sources : List Source) (pool : List ChunkMeta) :
    ReadIterOutcome × List ChunkMeta :=
  if cancelled then (.stopErr ctxCanceledMsg, pool)
  else
    match status with
    | .wait => (.sleepRetry, pool)
    | .terminate => (.stopErr terminateMsg, pool)
    | .ok =>
      match pool with
      | [] => (.stopOk, [])
      | chMeta :: rest =>
        match sourceByType sources chMeta.Source with
        | Option.none => (.stopErr noSourceReadMsg, rest)
        | Option.some s =>
          match s.readChunk chMeta with
          | .error e => (.stopErr (readFailMsg ++ e), rest)
          | .ok c => (.pushed c, rest)
    | .none => (.stopErr unknownStatusMsg, pool)

/-! ## transferer.go: the archive writer -/

/-- Tar entry type flags used by the writer (`tar.TypeReg`). -/
inductive TarTypeflag
  | reg
deriving DecidableEq, Repr

/-- The tar header fields set by `Transferer.writeChunksToFile`. -/
structure TarHeader where
  Typeflag : TarTypeflag
  Name : GoString
  Size : Int
  Mode : Int
deriving DecidableEq, Repr

/-- An entry of the produced archive: either a chunk file (header plus
content bytes) or the metadata entry.  The metadata entry is modelled from
the spec: `writeMetafile` is not among the sources, and the spec says the
finalized Meta is serialized once as a dedicated entry under the reserved
filename. -/
inductive ArchiveEntry
  | file (h : TarHeader) (content : List UInt8)
  | metafile (m : Meta)
deriving DecidableEq, Repr

/-- The loop of `Transferer.writeChunksToFile`, with the bounded channel
replaced by the list of chunks received before the channel closes: each
chunk raises the running `MaxChunkSize` maximum, is written as one
regular-file entry named `path.Join(sourceTypeName, filename)` with mode
0600 and exact content size; when the channel closes the metadata entry is
written last. -/
def writeChunksLoop (sources : List Source) (meta : Meta) :
    List Chunk → Except GoString (List ArchiveEntry)
  | [] => .ok [.metafile meta]
  | c :: cs =>
    match sourceByType sources c.Source with
    | Option.none => .error "failed to find source to write chunk".toList
    | Option.some s =>
      let chunkSize : Int := (c.Content.length : Int)
      let meta2 := if chunkSize > meta.MaxChunkSize then { meta with MaxChunkSize := chunkSize } else meta
      match writeChunksLoop sources meta2 cs with
      | .error e => .error e
      | .ok es =>
        .ok (.file { Typeflag := .reg, Name := goPathJoin s.type.str c.Filename,
                     Size := chunkSize, Mode := 0o600 } c.Content :: es)

/-- The running maximum that `writeChunksToFile` accumulates into
`Meta.MaxChunkSize`, starting from a given initial value. -/
def maxChunkContentSize (init : Int) (cs : List Chunk) : Int :=
  cs.foldl (fun a c => max a (c.Content.length : Int)) init

/-! ## transferer.go: import -/

/-- Error message prefix of the corrupted-dump branch of `Import`. -/
def corruptedMsg : GoString := "corrupted dump: found undefined source: ".toList

/-- The classification of one non-EOF archive entry by the body of the
`Import` loop. -/
inductive EntryStep
  | metaRecord
  | panicked
  | corrupted (dir : GoString)
  | skipped (st : SourceType)
  | writeFailed (e : GoString)
  | written (st : SourceType) (filename : GoString)
deriving Repr

/-- The body of the `Import` loop for one archive entry (name and content
bytes): split the path, divert the metadata entry, slice the trailing slash
off the directory component (`dir[:len(dir)-1]`, which panics when `dir` is
empty), resolve the backend type, skip unconfigured backends, otherwise
write the chunk. -/
def importEntryStep (sources : List Source) (name : GoString)
    (content : List UInt8) : EntryStep :=
  let df := goPathSplit name
  if df.2 = MetaFilename then .metaRecord
  else
    match goSliceUpTo df.1 ((df.1.length : Int) - 1) with
    | Option.none => .panicked
    | Option.some dirName =>
      let st := ParseSourceType dirName
      if st = .undefined then .corrupted df.1
      else
        match sourceByType sources st with
        | Option.none => .skipped st
        | Option.some s =>
          match s.writeChunk df.2 content with
          | Option.some e => .writeFailed e
          | Option.none => .written st df.2

/-- The result of a whole `Import` run. -/
inductive ImportResult
  | fatal (msg : GoString)
  | panicked
  | success (metafileExists : Bool)
deriving Repr

/-- The finalize loop at the end of `Import`: the first failing
`FinalizeWrites` aborts. -/
def finalizeAll : List Source → Option GoString
  | [] => Option.none
  | s :: rest =>
    match s.finalizeWrites with
    | Option.some e => Option.some ("failed to finalize import: ".toList ++ e)
    | Option.none => finalizeAll rest

/-- The entry loop of `Import`, tracking whether a metadata entry has been
seen, followed by the finalize loop; `success` carries the final
`metafileExists` flag (`false` means the missing-metafile warning is
logged, which is not an error). -/
def importLoop (sources : List Source) (metafileExists : Bool) :
    List (GoString × List UInt8) → ImportResult
  | [] =>
    match finalizeAll sources with
    | Option.some e => .fatal e
    | Option.none => .success metafileExists
  | (name, content) :: rest =>
    match importEntryStep sources name content with
    | .metaRecord => importLoop sources true rest
    | .panicked => .panicked
    | .corrupted dir => .fatal (corruptedMsg ++ dir)
    | .skipped _ => importLoop sources metafileExists rest
    | .writeFailed e => .fatal ("failed to write chunk: ".toList ++ e)
    | .written _ _ => importLoop sources metafileExists rest

/-- `Transferer.Import` from transferer.go, over the already-decoded list
of archive entries: the loop starts with no metadata entry seen. -/
def ImportRun (sources : List Source) (entries : List (GoString × List UInt8)) :
    ImportResult :=
  importLoop sources false entries

/-! ## Auxiliary decompositions of the pair parser -/

/-- The successfully parsed key/value of one pair, when there is one. -/
def okKV (p : GoString) : Option (ThresholdKey × Rat) :=
  (parsePair p).toOption

/-- Insertion of a list of parsed key/value pairs into a threshold map, in
order (the map-building layer of `parsePairs`). -/
def insertPairs (m : ThresholdMap) : List (ThresholdKey × Rat) → ThresholdMap
  | [] => m
  | kv :: rest => insertPairs (mapInsert m kv.1 kv.2) rest

/-- The keys of the successfully parsed pairs of a spec string, in input
order. -/
def parsedPairKeys (s : GoString) : List ThresholdKey :=
  ((splitPairs s).filterMap okKV).map Prod.fst

/-! ## Helper lemmas about the load checker -/

/-- `updateStatus` never changes the configured thresholds. -/
theorem updateStatus_thresholds (lc : LoadChecker) (f : Threshold → Option Rat) :
    (updateStatus lc f).thresholds = lc.thresholds := by
  unfold updateStatus
  by_cases h : cycleStatus lc f = .wait <;> simp [h]

/-- The cycle status only depends on the configured thresholds. -/
theorem cycleStatus_congr (lc lc2 : LoadChecker) (f : Threshold → Option Rat)
    (h : lc2.thresholds = lc.thresholds) : cycleStatus lc2 f = cycleStatus lc f := by
  unfold cycleStatus checkMetricsLoad
  rw [h]

/-- Unfolding `runUpdates` by one cycle. -/
theorem runUpdates_cons (lc : LoadChecker) (f : Threshold → Option Rat)
    (fs : List (Threshold → Option Rat)) :
    runUpdates lc (f :: fs) = runUpdates (updateStatus lc f) fs := rfl

/-- The check loop never produces NONE from a non-NONE accumulator. -/
theorem checkMetricsLoadAux_ne_none (fetch : Threshold → Option Rat) :
    ∀ (ts : List Threshold) (acc s : LoadStatus), acc ≠ .none →
      checkMetricsLoadAux fetch ts acc = Option.some s → s ≠ .none := by
  intro ts
  induction ts with
  | nil =>
    intro acc s h1 h2
    unfold checkMetricsLoadAux at h2
    cases h2
    exact h1
  | cons t ts ih =>
    intro acc s h1 h2
    unfold checkMetricsLoadAux at h2
    cases hf : fetch t with
    | none => simp [hf] at h2
    | some v =>
      simp only [hf] at h2
      by_cases hc : v ≥ t.CriticalLoad
      · rw [if_pos hc] at h2
        cases h2
        intro hcon
        cases hcon
      · rw [if_neg hc] at h2
        by_cases hm : v ≥ t.MaxLoad
        · rw [if_pos hm] at h2
          exact ih .wait s (by intro hcon; cases hcon) h2
        · rw [if_neg hm] at h2
          exact ih acc s h1 h2

/-- The error-folded status of one cycle is never NONE. -/
theorem cycleStatus_ne_none (lc : LoadChecker) (f : Threshold → Option Rat) :
    cycleStatus lc f ≠ .none := by
  unfold cycleStatus
  cases hc : checkMetricsLoad f lc with
  | none => simp
  | some s =>
    simp only [Option.getD_some]
    exact checkMetricsLoadAux_ne_none f lc.thresholds .ok s (by intro hx; cases hx) hc

/-- One `updateStatus` cycle always publishes a status other than NONE. -/
theorem updateStatus_latest_ne_none (lc : LoadChecker) (f : Threshold → Option Rat) :
    (updateStatus lc f).latestStatus ≠ .none := by
  unfold updateStatus
  by_cases h : cycleStatus lc f = .wait
  · simp only [h, if_true]
    split <;> simp
  · simp [h]
    exact cycleStatus_ne_none lc f

/-- Any run of update cycles preserves a non-NONE published status. -/
theorem runUpdates_latest_ne_none (fs : List (Threshold → Option Rat)) :
    ∀ lc : LoadChecker, lc.latestStatus ≠ .none →
      (runUpdates lc fs).latestStatus ≠ .none := by
  induction fs with
  | nil => intro lc h; exact h
  | cons f fs ih =>
    intro lc _
    rw [runUpdates_cons]
    exact ih _ (updateStatus_latest_ne_none lc f)

/-- A maximal run of WAIT cycles: the counter advances by the number of
cycles, the thresholds are unchanged, and the published status of the last
cycle is WAIT until the counter passes the bound and TERMINATE above it. -/
theorem runUpdates_all_wait (fs : List (Threshold → Option Rat)) :
    ∀ lc : LoadChecker, (∀ f ∈ fs, cycleStatus lc f = .wait) →
      (runUpdates lc fs).waitStatusCounter = lc.waitStatusCounter + fs.length
      ∧ (runUpdates lc fs).thresholds = lc.thresholds
      ∧ (fs ≠ [] → (runUpdates lc fs).latestStatus =
          (if lc.waitStatusCounter + fs.length > MaxWaitStatusInSequence
           then .terminate else .wait)) := by
  induction fs with
  | nil =>
    intro lc _
    exact ⟨rfl, rfl, by simp⟩
  | cons f fs ih =>
    intro lc h
    have hw : cycleStatus lc f = .wait := h f (by simp)
    have hthr := updateStatus_thresholds lc f
    have hcnt : (updateStatus lc f).waitStatusCounter = lc.waitStatusCounter + 1 := by
      unfold updateStatus
      simp [hw]
    have hlat : (updateStatus lc f).latestStatus =
        (if lc.waitStatusCounter + 1 > MaxWaitStatusInSequence then .terminate else .wait) := by
      unfold updateStatus
      simp [hw]
    have h2 : ∀ g ∈ fs, cycleStatus (updateStatus lc f) g = .wait := by
      intro g hg
      rw [cycleStatus_congr lc (updateStatus lc f) g hthr]
      exact h g (List.mem_cons_of_mem f hg)
    obtain ⟨ihc, ihthr, ihlat⟩ := ih (updateStatus lc f) h2
    rw [runUpdates_cons]
    refine ⟨?_, ?_, ?_⟩
    · rw [ihc, hcnt]
      simp
      omega
    · rw [ihthr, hthr]
    · intro _
      cases fs with
      | nil => simpa [runUpdates] using hlat
      | cons g gs =>
        rw [ihlat (by simp), hcnt]
        have harith : lc.waitStatusCounter + 1 + (g :: gs).length =
            lc.waitStatusCounter + (f :: g :: gs).length := by simp; omega
        rw [harith]

/-! ## Helper lemmas about the check loop -/

/-- A threshold whose fetched value reaches CriticalLoad short-circuits the
check loop to TERMINATE, whatever follows it and whatever the candidate
status is. -/
theorem checkMetricsLoadAux_critical_head (fetch : Threshold → Option Rat)
    (t : Threshold) (ts : List Threshold) (acc : LoadStatus) (v : Rat)
    (hv : fetch t = Option.some v) (hc : v ≥ t.CriticalLoad) :
    checkMetricsLoadAux fetch (t :: ts) acc = Option.some .terminate := by
  unfold checkMetricsLoadAux
  simp only [hv]
  rw [if_pos hc]

/-- A prefix of thresholds below their critical bounds is traversed without
returning; a critical threshold after it yields TERMINATE regardless of the
suffix. -/
theorem checkMetricsLoadAux_prefix_terminate (fetch : Threshold → Option Rat)
    (t : Threshold) (post : List Threshold)
    (hv : ∃ v, fetch t = Option.some v ∧ v ≥ t.CriticalLoad) :
    ∀ (pre : List Threshold) (acc : LoadStatus),
      (∀ t2 ∈ pre, ∃ v2, fetch t2 = Option.some v2 ∧ v2 < t2.CriticalLoad) →
      checkMetricsLoadAux fetch (pre ++ t :: post) acc = Option.some .terminate := by
  intro pre
  induction pre with
  | nil =>
    intro acc _
    obtain ⟨v, hv1, hv2⟩ := hv
    exact checkMetricsLoadAux_critical_head fetch t post acc v hv1 hv2
  | cons p pre ih =>
    intro acc hpre
    obtain ⟨v2, h1, h2⟩ := hpre p (by simp)
    show checkMetricsLoadAux fetch (p :: (pre ++ t :: post)) acc = _
    unfold checkMetricsLoadAux
    simp only [h1]
    rw [if_neg (not_le.mpr h2)]
    by_cases hm : v2 ≥ p.MaxLoad
    · rw [if_pos hm]
      exact ih .wait (fun t2 ht2 => hpre t2 (List.mem_cons_of_mem p ht2))
    · rw [if_neg hm]
      exact ih acc (fun t2 ht2 => hpre t2 (List.mem_cons_of_mem p ht2))

/-- When every threshold stays strictly below both bounds the loop keeps
its candidate status. -/
theorem checkMetricsLoadAux_all_ok (fetch : Threshold → Option Rat) :
    ∀ (ts : List Threshold) (acc : LoadStatus),
      (∀ t ∈ ts, ∃ v, fetch t = Option.some v ∧ v < t.MaxLoad ∧ v < t.CriticalLoad) →
      checkMetricsLoadAux fetch ts acc = Option.some acc := by
  intro ts
  induction ts with
  | nil => intro acc _; rfl
  | cons t ts ih =>
    intro acc h
    obtain ⟨v, h1, h2, h3⟩ := h t (by simp)
    unfold checkMetricsLoadAux
    simp only [h1]
    rw [if_neg (not_le.mpr h3), if_neg (not_le.mpr h2)]
    exact ih acc (fun t2 ht2 => h t2 (List.mem_cons_of_mem t ht2))

/-! ## Claim theorems: the backpressure controller -/

/-- C1: the controller counts consecutive WAIT cycles (the counter
increments on a WAIT result and resets to zero on any non-WAIT result);
once the counter exceeds `MaxWaitStatusInSequence` = 10 the published
status of that cycle is overridden to TERMINATE, and in particular after
11 consecutive WAIT-evaluating cycles from a reset counter the 11th
published status is TERMINATE. -/
theorem c1_consecutive_wait_escalation :
    (∀ (lc : LoadChecker) (f : Threshold → Option Rat),
        cycleStatus lc f ≠ .wait → (updateStatus lc f).waitStatusCounter = 0)
    ∧ (∀ (lc : LoadChecker) (f : Threshold → Option Rat),
        cycleStatus lc f = .wait →
        (updateStatus lc f).waitStatusCounter = lc.waitStatusCounter + 1)
    ∧ (∀ (lc : LoadChecker) (f : Threshold → Option Rat),
        cycleStatus lc f = .wait →
        lc.waitStatusCounter + 1 > MaxWaitStatusInSequence →
        (updateStatus lc f).latestStatus = .terminate)
    ∧ (∀ (lc : LoadChecker) (f : Threshold → Option Rat),
        cycleStatus lc f = .wait →
        lc.waitStatusCounter + 1 ≤ MaxWaitStatusInSequence →
        (updateStatus lc f).latestStatus = .wait)
    ∧ (∀ (lc : LoadChecker) (fs : List (Threshold → Option Rat)),
        lc.waitStatusCounter = 0 → fs.length = 11 →
        (∀ f ∈ fs, cycleStatus lc f = .wait) →
        (runUpdates lc fs).latestStatus = .terminate) := by
  refine ⟨?_, ?_, ?_, ?_, ?_⟩
  · intro lc f h
    unfold updateStatus
    simp [h]
  · intro lc f h
    unfold updateStatus
    simp [h]
  · intro lc f h h2
    unfold updateStatus
    simp [h, h2]
  · intro lc f h h2
    have h3 : ¬ (lc.waitStatusCounter + 1 > MaxWaitStatusInSequence) := by omega
    unfold updateStatus
    simp [h, h3]
  · intro lc fs h0 hlen hw
    have hne : fs ≠ [] := by
      intro heq
      rw [heq] at hlen
      simp at hlen
    obtain ⟨_, _, hl⟩ := runUpdates_all_wait fs lc hw
    rw [hl hne, h0, hlen]
    norm_num [MaxWaitStatusInSequence]

/-- Witness for C1: a checker with one threshold whose fetch always fails
(a failed check is folded into WAIT) reaches TERMINATE on the 11th cycle. -/
theorem c1_consecutive_wait_escalation_witness :
    (runUpdates (initialLoadChecker [{ Key := ThresholdCPU, Query := [], MaxLoad := 0, CriticalLoad := 1000 }])
      (List.replicate 11 (fun _ => Option.none))).latestStatus = .terminate := by
  apply c1_consecutive_wait_escalation.2.2.2.2
  · rfl
  · rfl
  · intro f hf
    rw [List.eq_of_mem_replicate hf]
    rfl

/-- C2: in the check loop, the first threshold whose value reaches
CriticalLoad returns TERMINATE immediately, independent of all later
thresholds; a value reaching MaxLoad (but not CriticalLoad) turns the
candidate status to WAIT and evaluation continues; and when no threshold
trips at all the final result is OK. -/
theorem c2_threshold_comparison_policy :
    (∀ (fetch : Threshold → Option Rat) (lc : LoadChecker) (pre : List Threshold)
        (t : Threshold) (post : List Threshold),
        lc.thresholds = pre ++ t :: post →
        (∀ t2 ∈ pre, ∃ v2, fetch t2 = Option.some v2 ∧ v2 < t2.CriticalLoad) →
        (∃ v, fetch t = Option.some v ∧ v ≥ t.CriticalLoad) →
        checkMetricsLoad fetch lc = Option.some .terminate)
    ∧ (∀ (fetch : Threshold → Option Rat) (t : Threshold) (ts : List Threshold)
        (acc : LoadStatus) (v : Rat),
        fetch t = Option.some v → v < t.CriticalLoad → v ≥ t.MaxLoad →
        checkMetricsLoadAux fetch (t :: ts) acc = checkMetricsLoadAux fetch ts .wait)
    ∧ (∀ (fetch : Threshold → Option Rat) (lc : LoadChecker),
        (∀ t ∈ lc.thresholds, ∃ v, fetch t = Option.some v ∧ v < t.MaxLoad ∧ v < t.CriticalLoad) →
        checkMetricsLoad fetch lc = Option.some .ok) := by
  refine ⟨?_, ?_, ?_⟩
  · intro fetch lc pre t post hthr hpre hv
    unfold checkMetricsLoad
    rw [hthr]
    exact checkMetricsLoadAux_prefix_terminate fetch t post hv pre .ok hpre
  · intro fetch t ts acc v h1 h2 h3
    conv_lhs => unfold checkMetricsLoadAux
    simp only [h1]
    rw [if_neg (not_le.mpr h2), if_pos h3]
  · intro fetch lc h
    unfold checkMetricsLoad
    exact checkMetricsLoadAux_all_ok fetch lc.thresholds .ok h

/-- Witness for C2: with thresholds CPU(max 50, crit 90) and RAM(max 60,
crit 95), values CPU=70 and RAM=95 make the second threshold terminate the
check (RAM exactly equals its critical bound), while values of 10
everywhere give OK. -/
theorem c2_threshold_comparison_policy_witness :
    checkMetricsLoad
        (fun t => if t.Key = ThresholdCPU then Option.some 70 else Option.some 95)
        (initialLoadChecker
          [{ Key := ThresholdCPU, Query := [], MaxLoad := 50, CriticalLoad := 90 },
           { Key := ThresholdRAM, Query := [], MaxLoad := 60, CriticalLoad := 95 }]) =
      Option.some .terminate
    ∧ checkMetricsLoad (fun _ => Option.some 10)
        (initialLoadChecker
          [{ Key := ThresholdCPU, Query := [], MaxLoad := 50, CriticalLoad := 90 },
           { Key := ThresholdRAM, Query := [], MaxLoad := 60, CriticalLoad := 95 }]) =
      Option.some .ok := by
  constructor
  · exact c2_threshold_comparison_policy.1
      (fun t => if t.Key = ThresholdCPU then Option.some 70 else Option.some 95)
      (initialLoadChecker
        [{ Key := ThresholdCPU, Query := [], MaxLoad := 50, CriticalLoad := 90 },
         { Key := ThresholdRAM, Query := [], MaxLoad := 60, CriticalLoad := 95 }])
      [{ Key := ThresholdCPU, Query := [], MaxLoad := 50, CriticalLoad := 90 }]
      { Key := ThresholdRAM, Query := [], MaxLoad := 60, CriticalLoad := 95 }
      [] rfl
      (by
        intro t2 ht2
        rw [List.mem_singleton] at ht2
        subst ht2
        exact ⟨70, by decide, by norm_num⟩)
      ⟨95, by decide, by norm_num⟩
  · exact c2_threshold_comparison_policy.2.2 (fun _ => Option.some 10)
      (initialLoadChecker
        [{ Key := ThresholdCPU, Query := [], MaxLoad := 50, CriticalLoad := 90 },
         { Key := ThresholdRAM, Query := [], MaxLoad := 60, CriticalLoad := 95 }])
      (by
        intro t ht
        rcases List.mem_cons.mp ht with h | h2
        · subst h
          exact ⟨10, rfl, by norm_num, by norm_num⟩
        · rw [List.mem_singleton] at h2
          subst h2
          exact ⟨10, rfl, by norm_num, by norm_num⟩)

/-- C5: the published status is never NONE: the checker starts from the
fail-safe initial WAIT, a failed check is folded into a WAIT cycle result,
and after construction and any number of polling cycles the status getter
returns one of OK, WAIT, TERMINATE. -/
theorem c5_published_status_never_none :
    (∀ ts : List Threshold, (initialLoadChecker ts).latestStatus = .wait)
    ∧ (∀ (lc : LoadChecker) (f : Threshold → Option Rat),
        checkMetricsLoad f lc = Option.none → cycleStatus lc f = .wait)
    ∧ (∀ (ts : List Threshold) (f0 : Threshold → Option Rat)
        (fs : List (Threshold → Option Rat)),
        GetLatestStatus (runUpdates (NewLoadChecker ts f0) fs) ≠ .none
        ∧ (GetLatestStatus (runUpdates (NewLoadChecker ts f0) fs) = .ok
          ∨ GetLatestStatus (runUpdates (NewLoadChecker ts f0) fs) = .wait
          ∨ GetLatestStatus (runUpdates (NewLoadChecker ts f0) fs) = .terminate)) := by
  refine ⟨fun ts => rfl, ?_, ?_⟩
  · intro lc f h
    unfold cycleStatus
    rw [h]
    rfl
  · intro ts f0 fs
    have hne : (runUpdates (NewLoadChecker ts f0) fs).latestStatus ≠ .none :=
      runUpdates_latest_ne_none fs (NewLoadChecker ts f0)
        (updateStatus_latest_ne_none (initialLoadChecker ts) f0)
    refine ⟨hne, ?_⟩
    cases hs : (runUpdates (NewLoadChecker ts f0) fs).latestStatus with
    | none => exact absurd hs hne
    | ok => exact Or.inl hs
    | wait => exact Or.inr (Or.inl hs)
    | terminate => exact Or.inr (Or.inr hs)

/-- Witness for C5: concrete instances of the three parts, with a
single-threshold checker whose fetch always fails. -/
theorem c5_published_status_never_none_witness :
    (initialLoadChecker []).latestStatus = .wait
    ∧ cycleStatus
        (initialLoadChecker [{ Key := ThresholdCPU, Query := [], MaxLoad := 0, CriticalLoad := 1000 }])
        (fun _ => Option.none) = .wait
    ∧ GetLatestStatus (runUpdates (NewLoadChecker [] (fun _ => Option.none)) []) ≠ .none :=
  ⟨c5_published_status_never_none.1 [],
   c5_published_status_never_none.2.1
     (initialLoadChecker [{ Key := ThresholdCPU, Query := [], MaxLoad := 0, CriticalLoad := 1000 }])
     (fun _ => Option.none) rfl,
   (c5_published_status_never_none.2.2 [] (fun _ => Option.none) []).1⟩


/-- Counterexample for C4: a response with TWO result entries (the claim
demands "exactly one") is accepted by `getValidValue`, because the code
only rejects an empty result list and then reads `Result[0]`. -/
theorem c4_two_results_accepted_counterexample :
    getValidValue
        { Status := "success".toList,
          Data := { ResultType := [],
                    Result := [{ Instance := [], Value := [JsonValue.jnum 0, JsonValue.jstr "5".toList] },
                               { Instance := [], Value := [] }] } } = .ok 5
    ∧ ({ Status := "success".toList,
         Data := { ResultType := [],
                   Result := [{ Instance := [], Value := [JsonValue.jnum 0, JsonValue.jstr "5".toList] },
                              { Instance := [], Value := [] }] } } : MetricResponse).Data.Result.length ≠ 1 := by
  constructor
  · simp [getValidValue, goParseFloat, splitSign, breakAt, isDigits, digitsToNat]
  · decide

/-- C4 (amended): `getValidValue` accepts a response if and only if the
status field equals "success", the result list is nonempty (not
necessarily a singleton), and the FIRST entry's value array has exactly two
elements whose second element is a string parseable as a float. -/
theorem c4_response_validation_amended (r : MetricResponse) :
    (∃ v, getValidValue r = .ok v) ↔
    (r.Status = "success".toList
     ∧ ∃ first rest, r.Data.Result = first :: rest
       ∧ ∃ a s, first.Value = [a, JsonValue.jstr s] ∧ (goParseFloat s).isSome = true) := by
  obtain ⟨st, dt⟩ := r
  obtain ⟨rt, res⟩ := dt
  constructor
  · intro hex
    obtain ⟨v, hv⟩ := hex
    by_cases hs : st = "success".toList
    · subst hs
      cases res with
      | nil => simp [getValidValue] at hv
      | cons first rest =>
        obtain ⟨inst1, val⟩ := first
        refine ⟨rfl, ⟨inst1, val⟩, rest, rfl, ?_⟩
        cases val with
        | nil => simp [getValidValue] at hv
        | cons a tl =>
          cases tl with
          | nil => simp [getValidValue] at hv
          | cons b tl2 =>
            cases tl2 with
            | cons c tl3 => simp [getValidValue] at hv
            | nil =>
              cases b with
              | jstr s =>
                refine ⟨a, s, rfl, ?_⟩
                cases hgp : goParseFloat s with
                | none => simp [getValidValue, hgp] at hv
                | some w => simp [hgp]
              | jnull => simp [getValidValue] at hv
              | jbool b2 => simp [getValidValue] at hv
              | jnum x => simp [getValidValue] at hv
              | jcomposite => simp [getValidValue] at hv
    · exfalso
      simp at hs
      simp [getValidValue, hs] at hv
  · rintro ⟨hs, first, rest, h1, a, s, h2, h3⟩
    subst hs
    subst h1
    obtain ⟨i1, val⟩ := first
    subst h2
    obtain ⟨w, hw⟩ : ∃ w, goParseFloat s = Option.some w := by
      cases hgp : goParseFloat s with
      | none => rw [hgp] at h3; simp at h3
      | some w => exact ⟨w, rfl⟩
    exact ⟨w, by simp [getValidValue, hw]⟩

/-- Witness for C4 (amended): a well-shaped single-entry response is
accepted. -/
theorem c4_response_validation_amended_witness :
    ∃ v, getValidValue
        { Status := "success".toList,
          Data := { ResultType := [],
                    Result := [{ Instance := [], Value := [JsonValue.jnum 0, JsonValue.jstr "7".toList] }] } } =
      .ok v :=
  (c4_response_validation_amended
      { Status := "success".toList,
        Data := { ResultType := [],
                  Result := [{ Instance := [], Value := [JsonValue.jnum 0, JsonValue.jstr "7".toList] }] } }).mpr
    ⟨rfl, { Instance := [], Value := [JsonValue.jnum 0, JsonValue.jstr "7".toList] }, [], rfl,
      JsonValue.jnum 0, "7".toList, rfl, by decide⟩

/-- C6: one reader-worker iteration when not cancelled: WAIT sleeps and
retries without consuming a pool item, TERMINATE stops with the terminal
error, the defensive default (NONE) stops with the unknown-status error,
and under OK the iteration stops successfully exactly when the pool is
exhausted, otherwise consuming exactly the next pool item. -/
theorem c6_reader_worker_iteration :
    (∀ (sources : List Source) (pool : List ChunkMeta),
        readChunksIteration false .wait sources pool = (.sleepRetry, pool))
    ∧ (∀ (sources : List Source) (pool : List ChunkMeta),
        readChunksIteration false .terminate sources pool = (.stopErr terminateMsg, pool))
    ∧ (∀ (sources : List Source) (pool : List ChunkMeta),
        readChunksIteration false .none sources pool = (.stopErr unknownStatusMsg, pool))
    ∧ (∀ (sources : List Source) (pool : List ChunkMeta),
        (readChunksIteration false .ok sources pool).1 = .stopOk ↔ pool = [])
    ∧ (∀ (sources : List Source) (m : ChunkMeta) (rest : List ChunkMeta),
        (readChunksIteration false .ok sources (m :: rest)).2 = rest) := by
  refine ⟨fun sources pool => rfl, fun sources pool => rfl, fun sources pool => rfl, ?_, ?_⟩
  · intro sources pool
    constructor
    · intro h
      cases pool with
      | nil => rfl
      | cons m rest =>
        exfalso
        cases hs : sourceByType sources m.Source with
        | none => simp [readChunksIteration, hs] at h
        | some s =>
          cases hr : s.readChunk m with
          | error e => simp [readChunksIteration, hs, hr] at h
          | ok c => simp [readChunksIteration, hs, hr] at h
    · intro h
      subst h
      rfl
  · intro sources m rest
    cases hs : sourceByType sources m.Source with
    | none => simp [readChunksIteration, hs]
    | some s =>
      cases hr : s.readChunk m with
      | error e => simp [readChunksIteration, hs, hr]
      | ok c => simp [readChunksIteration, hs, hr]

/-- Witness for C6: concrete instances of the WAIT and OK-with-empty-pool
behaviors. -/
theorem c6_reader_worker_iteration_witness :
    readChunksIteration false .wait [] [{ Source := .victoriaMetrics, tag := 0 }] =
      (.sleepRetry, [{ Source := .victoriaMetrics, tag := 0 }])
    ∧ (readChunksIteration false .ok [] ([] : List ChunkMeta)).1 = .stopOk :=
  ⟨c6_reader_worker_iteration.1 [] [{ Source := .victoriaMetrics, tag := 0 }],
   (c6_reader_worker_iteration.2.2.2.1 [] []).mpr rfl⟩

/-- Absent characters have no last index. -/
theorem lastIndexOf_eq_none_of_not_mem (c : Char) :
    ∀ l : GoString, c ∉ l → lastIndexOf c l = Option.none := by
  intro l
  induction l with
  | nil => intro _; rfl
  | cons x xs ih =>
    intro h
    have hx : ¬ x = c := by
      intro he
      subst he
      exact h (List.mem_cons_self x xs)
    simp [lastIndexOf, ih (fun hm => h (List.mem_cons_of_mem x hm)), hx]

/-- C10: an archive entry whose name contains no slash (a root-level entry)
and is not the metadata filename drives the import loop into the
out-of-range slice `dir[:len(dir)-1]` with `dir` empty: the entry
classification is the panic, the import run panics, and in particular it
does not return the corrupted-archive error. -/
theorem c10_root_level_entry_panics
    (sources : List Source) (name : GoString) (content : List UInt8)
    (b : Bool) (rest : List (GoString × List UInt8))
    (hsl : '/' ∉ name) (hmf : name ≠ MetaFilename) :
    goPathSplit name = ([], name)
    ∧ goSliceUpTo [] ((0 : Int) - 1) = Option.none
    ∧ importEntryStep sources name content = .panicked
    ∧ importLoop sources b ((name, content) :: rest) = .panicked
    ∧ (∀ msg, importLoop sources b ((name, content) :: rest) ≠ .fatal msg) := by
  have hsplit : goPathSplit name = ([], name) := by
    unfold goPathSplit
    rw [lastIndexOf_eq_none_of_not_mem '/' name hsl]
  have hslice : goSliceUpTo [] ((0 : Int) - 1) = Option.none := by
    norm_num [goSliceUpTo]
  have hstep : importEntryStep sources name content = .panicked := by
    simp only [importEntryStep, hsplit, List.length_nil]
    rw [if_neg hmf]
    norm_num [goSliceUpTo]
  have hloop : importLoop sources b ((name, content) :: rest) = .panicked := by
    simp only [importLoop, hstep]
  refine ⟨hsplit, hslice, hstep, hloop, ?_⟩
  intro msg hcon
  rw [hloop] at hcon
  cases hcon

/-- Witness for C10: the root-level entry name "foo" panics the import. -/
theorem c10_root_level_entry_panics_witness :
    importLoop [] false [("foo".toList, [])] = .panicked :=
  (c10_root_level_entry_panics [] "foo".toList [] false []
    (by decide) (by decide)).2.2.2.1

/-- C8: import error tolerances: an entry whose directory component
resolves to an unrecognized backend type makes the run fail with the
corrupted-dump error; an entry with a recognized backend type but no
configured adapter is skipped and the run continues unchanged; and a run
whose entries are all written or skipped (so no metadata entry was seen)
finishes successfully with the missing-metafile flag false (a warning, not
an error), provided finalization succeeds. -/
theorem c8_import_error_tolerances :
    (∀ (sources : List Source) (b : Bool) (name : GoString) (content : List UInt8)
        (rest : List (GoString × List UInt8)) (dir : GoString),
        importEntryStep sources name content = .corrupted dir →
        importLoop sources b ((name, content) :: rest) = .fatal (corruptedMsg ++ dir))
    ∧ (∀ (sources : List Source) (b : Bool) (name : GoString) (content : List UInt8)
        (rest : List (GoString × List UInt8)) (st : SourceType),
        importEntryStep sources name content = .skipped st →
        importLoop sources b ((name, content) :: rest) = importLoop sources b rest)
    ∧ (∀ (sources : List Source) (entries : List (GoString × List UInt8)),
        (∀ e ∈ entries, (∃ st fn, importEntryStep sources e.1 e.2 = .written st fn)
          ∨ (∃ st, importEntryStep sources e.1 e.2 = .skipped st)) →
        finalizeAll sources = Option.none →
        ImportRun sources entries = .success false) := by
  refine ⟨?_, ?_, ?_⟩
  · intro sources b name content rest dir h
    simp only [importLoop, h]
  · intro sources b name content rest st h
    simp only [importLoop, h]
  · intro sources entries
    induction entries with
    | nil =>
      intro _ hfin
      simp [ImportRun, importLoop, hfin]
    | cons e es ih =>
      intro h hfin
      obtain ⟨name, content⟩ := e
      show importLoop sources false ((name, content) :: es) = .success false
      rcases h (name, content) (List.mem_cons_self _ _) with ⟨st, fn, hw⟩ | ⟨st, hw⟩
      · simp only [importLoop, hw]
        exact ih (fun e2 he2 => h e2 (List.mem_cons_of_mem _ he2)) hfin
      · simp only [importLoop, hw]
        exact ih (fun e2 he2 => h e2 (List.mem_cons_of_mem _ he2)) hfin

/-- Witness for C8: a one-adapter run over one matching entry succeeds with
the metafile flag false, and an entry for the other (recognized but
unconfigured) backend is skipped. -/
theorem c8_import_error_tolerances_witness :
    ImportRun
        [{ type := .victoriaMetrics, readChunk := fun _ => .error [],
           writeChunk := fun _ _ => Option.none, finalizeWrites := Option.none }]
        [("vm/a".toList, [])] = .success false
    ∧ importLoop
        [{ type := .victoriaMetrics, readChunk := fun _ => .error [],
           writeChunk := fun _ _ => Option.none, finalizeWrites := Option.none }]
        false [("ch/b".toList, [])] =
      importLoop
        [{ type := .victoriaMetrics, readChunk := fun _ => .error [],
           writeChunk := fun _ _ => Option.none, finalizeWrites := Option.none }]
        false [] := by
  constructor
  · apply c8_import_error_tolerances.2.2
    · intro e he
      rw [List.mem_singleton] at he
      subst he
      exact Or.inl ⟨.victoriaMetrics, "a".toList, rfl⟩
    · rfl
  · exact c8_import_error_tolerances.2.1 _ false "ch/b".toList [] [] .clickHouse rfl

/-! ## Helper lemmas about paths and the archive writer -/

/-- Splitting on an absent character returns the whole list. -/
theorem splitOnChar_not_mem (c : Char) :
    ∀ l : GoString, c ∉ l → splitOnChar c l = [l] := by
  intro l
  induction l with
  | nil => intro _; rfl
  | cons x xs ih =>
    intro h
    have hx : ¬ x = c := by
      intro he
      subst he
      exact h (List.mem_cons_self x xs)
    simp [splitOnChar, ih (fun hm => h (List.mem_cons_of_mem x hm)), hx]

/-- Splitting a two-segment path on its separator. -/
theorem splitOnChar_two_segments (c : Char) (b : GoString) (hb : c ∉ b) :
    ∀ a : GoString, c ∉ a → splitOnChar c (a ++ c :: b) = [a, b] := by
  intro a
  induction a with
  | nil =>
    intro _
    show splitOnChar c (c :: b) = [[], b]
    simp [splitOnChar, splitOnChar_not_mem c b hb]
  | cons x a2 ih =>
    intro h
    have hx : ¬ x = c := by
      intro he
      subst he
      exact h (List.mem_cons_self x a2)
    show splitOnChar c (x :: (a2 ++ c :: b)) = [x :: a2, b]
    simp [splitOnChar, ih (fun hm => h (List.mem_cons_of_mem x hm)), hx]

/-- `path.Clean` is the identity on a relative two-segment path whose
segments are nonempty, slash-free and not dot segments. -/
theorem goPathClean_two_clean_segments (a b : GoString)
    (ha1 : a ≠ []) (ha2 : '/' ∉ a) (ha3 : a ≠ ['.']) (ha4 : a ≠ ['.', '.'])
    (hb1 : b ≠ []) (hb2 : '/' ∉ b) (hb3 : b ≠ ['.']) (hb4 : b ≠ ['.', '.']) :
    goPathClean (a ++ '/' :: b) = a ++ '/' :: b := by
  obtain ⟨x, a2, rfl⟩ : ∃ x a2, a = x :: a2 := by
    cases a with
    | nil => exact absurd rfl ha1
    | cons x a2 => exact ⟨x, a2, rfl⟩
  have hx : x ≠ '/' := by
    intro he
    subst he
    exact ha2 (List.mem_cons_self _ _)
  have hne : (x :: a2) ++ '/' :: b ≠ [] := by simp
  have hsplit := splitOnChar_two_segments '/' b hb2 (x :: a2) ha2
  have hcs : cleanSegments false [] [x :: a2, b] = [b, x :: a2] := by
    simp [cleanSegments, ha3, ha4, hb1, hb3, hb4]
  have hx2 : (x = '/') = False := eq_false hx
  have hsplit2 : splitOnChar '/' (x :: (a2 ++ '/' :: b)) = [x :: a2, b] := by
    simpa using hsplit
  unfold goPathClean
  rw [if_neg hne]
  simp [hx2, hsplit2, hcs, joinSegments]

/-- `path.Join` concatenates a relative two-segment clean path verbatim. -/
theorem goPathJoin_clean (a b : GoString)
    (ha1 : a ≠ []) (ha2 : '/' ∉ a) (ha3 : a ≠ ['.']) (ha4 : a ≠ ['.', '.'])
    (hb1 : b ≠ []) (hb2 : '/' ∉ b) (hb3 : b ≠ ['.']) (hb4 : b ≠ ['.', '.']) :
    goPathJoin a b = a ++ '/' :: b := by
  unfold goPathJoin
  rw [if_pos ha1]
  exact goPathClean_two_clean_segments a b ha1 ha2 ha3 ha4 hb1 hb2 hb3 hb4

/-- Backend type names are nonempty, slash-free, non-dot segments. -/
theorem sourceType_str_clean (st : SourceType) :
    SourceType.str st ≠ [] ∧ '/' ∉ SourceType.str st
    ∧ SourceType.str st ≠ ['.'] ∧ SourceType.str st ≠ ['.', '.'] := by
  cases st <;> refine ⟨?_, ?_, ?_, ?_⟩ <;> decide

/-- The source found by `sourceByType` has the requested type. -/
theorem sourceByType_type (sources : List Source) (st : SourceType) (s : Source)
    (h : sourceByType sources st = Option.some s) : s.type = st := by
  unfold sourceByType at h
  have h2 := List.find?_some h
  exact of_decide_eq_true h2

/-- The writer loop, in closed form: when every chunk's backend has a
configured source, it emits one file entry per chunk in order, followed by
the metadata entry carrying the running maximum chunk size. -/
theorem writeChunksLoop_ok (sources : List Source) :
    ∀ (chunks : List Chunk) (meta : Meta),
      (∀ c ∈ chunks, (sourceByType sources c.Source).isSome = true) →
      writeChunksLoop sources meta chunks =
        .ok (chunks.map (fun c =>
              ArchiveEntry.file
                { Typeflag := .reg, Name := goPathJoin c.Source.str c.Filename,
                  Size := (c.Content.length : Int), Mode := 0o600 } c.Content)
            ++ [.metafile { meta with MaxChunkSize := maxChunkContentSize meta.MaxChunkSize chunks }]) := by
  intro chunks
  induction chunks with
  | nil =>
    intro meta _
    simp [writeChunksLoop, maxChunkContentSize]
  | cons c cs ih =>
    intro meta h
    obtain ⟨s, hs⟩ := Option.isSome_iff_exists.mp (h c (List.mem_cons_self _ _))
    have hst : s.type = c.Source := sourceByType_type sources c.Source s hs
    have hmeta2 :
        (if ((c.Content.length : Int)) > meta.MaxChunkSize
         then { meta with MaxChunkSize := (c.Content.length : Int) } else meta) =
        { meta with MaxChunkSize := max meta.MaxChunkSize (c.Content.length : Int) } := by
      by_cases hgt : ((c.Content.length : Int)) > meta.MaxChunkSize
      · rw [if_pos hgt, max_eq_right hgt.le]
      · rw [if_neg hgt, max_eq_left (not_lt.mp hgt)]
    unfold writeChunksLoop
    simp only [hs]
    rw [hmeta2, ih { meta with MaxChunkSize := max meta.MaxChunkSize (c.Content.length : Int) }
          (fun c2 hc2 => h c2 (List.mem_cons_of_mem _ hc2))]
    simp [hst, maxChunkContentSize]

/-- The running maximum never drops below its initial value. -/
theorem le_maxChunkContentSize_init :
    ∀ (cs : List Chunk) (init : Int), init ≤ maxChunkContentSize init cs := by
  intro cs
  induction cs with
  | nil => intro init; exact le_refl _
  | cons c cs ih =>
    intro init
    show init ≤ maxChunkContentSize (max init (c.Content.length : Int)) cs
    exact le_trans (le_max_left _ _) (ih _)

/-- Every chunk size is bounded by the running maximum. -/
theorem mem_le_maxChunkContentSize :
    ∀ (cs : List Chunk) (init : Int) (c : Chunk), c ∈ cs →
      (c.Content.length : Int) ≤ maxChunkContentSize init cs := by
  intro cs
  induction cs with
  | nil => intro init c hc; cases hc
  | cons d ds ih =>
    intro init c hc
    rcases List.mem_cons.mp hc with rfl | hc2
    · show (c.Content.length : Int) ≤ maxChunkContentSize (max init (c.Content.length : Int)) ds
      exact le_trans (le_max_right _ _) (le_maxChunkContentSize_init ds _)
    · show (c.Content.length : Int) ≤ maxChunkContentSize (max init (d.Content.length : Int)) ds
      exact ih _ c hc2

/-- The running maximum is either the initial value or a chunk size. -/
theorem maxChunkContentSize_attained :
    ∀ (cs : List Chunk) (init : Int),
      maxChunkContentSize init cs = init
      ∨ ∃ c ∈ cs, maxChunkContentSize init cs = (c.Content.length : Int) := by
  intro cs
  induction cs with
  | nil => intro init; exact Or.inl rfl
  | cons d ds ih =>
    intro init
    rcases ih (max init (d.Content.length : Int)) with h | ⟨c, hc, he⟩
    · rcases le_or_lt (d.Content.length : Int) init with hle | hlt
      · left
        show maxChunkContentSize (max init (d.Content.length : Int)) ds = init
        rw [h, max_eq_left hle]
      · right
        refine ⟨d, List.mem_cons_self _ _, ?_⟩
        show maxChunkContentSize (max init (d.Content.length : Int)) ds = _
        rw [h, max_eq_right hlt.le]
    · right
      refine ⟨c, List.mem_cons_of_mem _ hc, ?_⟩
      show maxChunkContentSize (max init (d.Content.length : Int)) ds = _
      exact he

/-- C7: in a successful export run starting from a zeroed maximum, each
chunk becomes exactly one regular-file entry at
`\x7bbackendTypeName\x7d/\x7bchunkFilename\x7d` with mode 0600 and size equal to its
content length, the single metadata entry comes last, and its
MaxChunkSize is the largest content length among the written chunks. -/
theorem c7_export_archive_layout (sources : List Source) (meta : Meta) (chunks : List Chunk)
    (h1 : ∀ c ∈ chunks, (sourceByType sources c.Source).isSome = true)
    (h2 : ∀ c ∈ chunks, c.Filename ≠ [] ∧ '/' ∉ c.Filename ∧ c.Filename ≠ ['.'] ∧ c.Filename ≠ ['.', '.'])
    (h3 : meta.MaxChunkSize = 0) :
    writeChunksLoop sources meta chunks =
      .ok (chunks.map (fun c =>
            ArchiveEntry.file
              { Typeflag := .reg, Name := c.Source.str ++ '/' :: c.Filename,
                Size := (c.Content.length : Int), Mode := 0o600 } c.Content)
          ++ [.metafile { meta with MaxChunkSize := maxChunkContentSize 0 chunks }])
    ∧ (∀ c ∈ chunks, (c.Content.length : Int) ≤ maxChunkContentSize 0 chunks)
    ∧ (chunks ≠ [] → ∃ c ∈ chunks, maxChunkContentSize 0 chunks = (c.Content.length : Int)) := by
  refine ⟨?_, fun c hc => mem_le_maxChunkContentSize chunks 0 c hc, ?_⟩
  · rw [writeChunksLoop_ok sources chunks meta h1, h3]
    have hmap : ∀ c ∈ chunks,
        ArchiveEntry.file
          { Typeflag := .reg, Name := goPathJoin c.Source.str c.Filename,
            Size := (c.Content.length : Int), Mode := 0o600 } c.Content =
        ArchiveEntry.file
          { Typeflag := .reg, Name := c.Source.str ++ '/' :: c.Filename,
            Size := (c.Content.length : Int), Mode := 0o600 } c.Content := by
      intro c hc
      obtain ⟨hf1, hf2, hf3, hf4⟩ := h2 c hc
      obtain ⟨hty1, hty2, hty3, hty4⟩ := sourceType_str_clean c.Source
      rw [goPathJoin_clean c.Source.str c.Filename hty1 hty2 hty3 hty4 hf1 hf2 hf3 hf4]
    rw [List.map_congr_left hmap]
  · intro hne
    rcases maxChunkContentSize_attained chunks 0 with h | h
    · obtain ⟨c0, cs0, rfl⟩ : ∃ c0 cs0, chunks = c0 :: cs0 := by
        cases chunks with
        | nil => exact absurd rfl hne
        | cons c0 cs0 => exact ⟨c0, cs0, rfl⟩
      refine ⟨c0, List.mem_cons_self _ _, ?_⟩
      have hle := mem_le_maxChunkContentSize (c0 :: cs0) 0 c0 (List.mem_cons_self _ _)
      rw [h] at hle ⊢
      omega
    · exact h

/-- Witness for C7: two chunks of sizes 3 and 1 produce two file entries
followed by the metadata entry with MaxChunkSize 3. -/
theorem c7_export_archive_layout_witness :
    writeChunksLoop
        [{ type := .victoriaMetrics, readChunk := fun _ => .error [],
           writeChunk := fun _ _ => Option.none, finalizeWrites := Option.none }]
        { MaxChunkSize := 0, Version := [] }
        [{ Source := .victoriaMetrics, Filename := "a.bin".toList, Content := [0, 0, 0] },
         { Source := .victoriaMetrics, Filename := "b.bin".toList, Content := [7] }] =
      .ok [ArchiveEntry.file { Typeflag := .reg, Name := "vm/a.bin".toList, Size := 3, Mode := 0o600 } [0, 0, 0],
           ArchiveEntry.file { Typeflag := .reg, Name := "vm/b.bin".toList, Size := 1, Mode := 0o600 } [7],
           .metafile { MaxChunkSize := 3, Version := [] }] := by
  have h := (c7_export_archive_layout
      [{ type := .victoriaMetrics, readChunk := fun _ => .error [],
         writeChunk := fun _ _ => Option.none, finalizeWrites := Option.none }]
      { MaxChunkSize := 0, Version := [] }
      [{ Source := .victoriaMetrics, Filename := "a.bin".toList, Content := [0, 0, 0] },
       { Source := .victoriaMetrics, Filename := "b.bin".toList, Content := [7] }]
      (by
        intro c hc
        rcases List.mem_cons.mp hc with rfl | hc2
        · rfl
        · rw [List.mem_singleton] at hc2
          subst hc2
          rfl)
      (by
        intro c hc
        rcases List.mem_cons.mp hc with rfl | hc2
        · exact ⟨by decide, by decide, by decide, by decide⟩
        · rw [List.mem_singleton] at hc2
          subst hc2
          exact ⟨by decide, by decide, by decide, by decide⟩)
      rfl).1
  rw [h]
  rfl

/-! ## Helper lemmas about threshold list parsing -/

/-- The only valid threshold keys are CPU and RAM. -/
theorem valid_key_cases (k : ThresholdKey) (h : IsValidThresholdKey k = true) :
    k = ThresholdCPU ∨ k = ThresholdRAM := by
  simp [IsValidThresholdKey, AllThresholdKeys] at h
  rcases h with h | h
  · exact Or.inl h.symm
  · exact Or.inr h.symm

/-- `ParseThresholdList` in closed form over the two parsed maps: one
optional Threshold per key, in the fixed CPU, RAM order, with absent
bounds defaulting to zero. -/
theorem ParseThresholdList_ok (mx cr : GoString) (maxV criticalV : ThresholdMap)
    (hm : parseThresholdValues mx = .ok maxV)
    (hc : parseThresholdValues cr = .ok criticalV) :
    ParseThresholdList mx cr = .ok (
      (if maxV ThresholdCPU = Option.none ∧ criticalV ThresholdCPU = Option.none then []
       else [{ Key := ThresholdCPU, Query := getQueryByThresholdKey ThresholdCPU,
               MaxLoad := (maxV ThresholdCPU).getD 0, CriticalLoad := (criticalV ThresholdCPU).getD 0 }])
      ++ (if maxV ThresholdRAM = Option.none ∧ criticalV ThresholdRAM = Option.none then []
          else [{ Key := ThresholdRAM, Query := getQueryByThresholdKey ThresholdRAM,
                  MaxLoad := (maxV ThresholdRAM).getD 0, CriticalLoad := (criticalV ThresholdRAM).getD 0 }])) := by
  simp only [ParseThresholdList, hm, hc, AllThresholdKeys, List.foldl]
  by_cases h1 : maxV ThresholdCPU = Option.none ∧ criticalV ThresholdCPU = Option.none <;>
    by_cases h2 : maxV ThresholdRAM = Option.none ∧ criticalV ThresholdRAM = Option.none <;>
      simp [h1, h2]

/-- C3: parsing "CPU=200" as the critical spec with an empty max spec
yields exactly one Threshold with MaxLoad zero and CriticalLoad 200; in
general a key present in only one of the two specs yields a Threshold
whose other bound is the Go zero value 0, and a key absent from both specs
yields no Threshold at all. -/
theorem c3_one_sided_threshold_defaults :
    ParseThresholdList "".toList "CPU=200".toList =
      .ok [{ Key := ThresholdCPU, Query := getQueryByThresholdKey ThresholdCPU,
             MaxLoad := 0, CriticalLoad := 200 }]
    ∧ (∀ (mx cr : GoString) (maxV criticalV : ThresholdMap) (k : ThresholdKey) (x : Rat),
        parseThresholdValues mx = .ok maxV → parseThresholdValues cr = .ok criticalV →
        IsValidThresholdKey k = true →
        maxV k = Option.some x → criticalV k = Option.none →
        ∃ out, ParseThresholdList mx cr = .ok out
          ∧ { Key := k, Query := getQueryByThresholdKey k,
              MaxLoad := x, CriticalLoad := 0 } ∈ out)
    ∧ (∀ (mx cr : GoString) (maxV criticalV : ThresholdMap) (k : ThresholdKey) (x : Rat),
        parseThresholdValues mx = .ok maxV → parseThresholdValues cr = .ok criticalV →
        IsValidThresholdKey k = true →
        maxV k = Option.none → criticalV k = Option.some x →
        ∃ out, ParseThresholdList mx cr = .ok out
          ∧ { Key := k, Query := getQueryByThresholdKey k,
              MaxLoad := 0, CriticalLoad := x } ∈ out)
    ∧ (∀ (mx cr : GoString) (maxV criticalV : ThresholdMap) (k : ThresholdKey),
        parseThresholdValues mx = .ok maxV → parseThresholdValues cr = .ok criticalV →
        maxV k = Option.none → criticalV k = Option.none →
        ∃ out, ParseThresholdList mx cr = .ok out ∧ ∀ th ∈ out, th.Key ≠ k) := by
  refine ⟨?_, ?_, ?_, ?_⟩
  · simp [ParseThresholdList, parseThresholdValues, splitPairs, parsePairs, parsePair,
          splitOnChar, trimSpace, isGoSpace, goParseFloat, splitSign, breakAt, isDigits,
          digitsToNat, IsValidThresholdKey, AllThresholdKeys, ThresholdCPU, ThresholdRAM,
          mapInsert, emptyThresholdMap]
  · intro mx cr maxV criticalV k x hm hc hk hmx hcx
    refine ⟨_, ParseThresholdList_ok mx cr maxV criticalV hm hc, ?_⟩
    rcases valid_key_cases k hk with rfl | rfl
    · simp [hmx, hcx]
    · simp [hmx, hcx]
  · intro mx cr maxV criticalV k x hm hc hk hmx hcx
    refine ⟨_, ParseThresholdList_ok mx cr maxV criticalV hm hc, ?_⟩
    rcases valid_key_cases k hk with rfl | rfl
    · simp [hmx, hcx]
    · simp [hmx, hcx]
  · intro mx cr maxV criticalV k hm hc hmx hcx
    refine ⟨_, ParseThresholdList_ok mx cr maxV criticalV hm hc, ?_⟩
    intro th hth
    rcases List.mem_append.mp hth with h | h
    · rcases Classical.em (maxV ThresholdCPU = Option.none ∧ criticalV ThresholdCPU = Option.none) with hcpu | hcpu
      · rw [if_pos hcpu] at h
        cases h
      · rw [if_neg hcpu] at h
        rw [List.mem_singleton] at h
        subst h
        intro he
        simp only at he
        rw [he] at hcpu
        exact hcpu ⟨hmx, hcx⟩
    · rcases Classical.em (maxV ThresholdRAM = Option.none ∧ criticalV ThresholdRAM = Option.none) with hram | hram
      · rw [if_pos hram] at h
        cases h
      · rw [if_neg hram] at h
        rw [List.mem_singleton] at h
        subst h
        intro he
        simp only at he
        rw [he] at hram
        exact hram ⟨hmx, hcx⟩

/-- Witness for C3: the one-sided parts applied to the concrete specs
"RAM=30" (max only) and "CPU=200" (critical only). -/
theorem c3_one_sided_threshold_defaults_witness :
    (∃ out, ParseThresholdList "RAM=30".toList "".toList = .ok out
      ∧ { Key := ThresholdRAM, Query := getQueryByThresholdKey ThresholdRAM,
          MaxLoad := 30, CriticalLoad := 0 } ∈ out)
    ∧ (∃ out, ParseThresholdList "".toList "CPU=200".toList = .ok out
      ∧ { Key := ThresholdCPU, Query := getQueryByThresholdKey ThresholdCPU,
          MaxLoad := 0, CriticalLoad := 200 } ∈ out) := by
  constructor
  · apply c3_one_sided_threshold_defaults.2.1 "RAM=30".toList "".toList
      (mapInsert emptyThresholdMap ThresholdRAM 30) emptyThresholdMap ThresholdRAM 30
    · simp [parseThresholdValues, splitPairs, parsePairs, parsePair, splitOnChar, trimSpace,
            isGoSpace, goParseFloat, splitSign, breakAt, isDigits, digitsToNat,
            IsValidThresholdKey, AllThresholdKeys, ThresholdCPU, ThresholdRAM]
    · rfl
    · rfl
    · simp [mapInsert]
    · rfl
  · apply c3_one_sided_threshold_defaults.2.2.1 "".toList "CPU=200".toList
      emptyThresholdMap (mapInsert emptyThresholdMap ThresholdCPU 200) ThresholdCPU 200
    · rfl
    · simp [parseThresholdValues, splitPairs, parsePairs, parsePair, splitOnChar, trimSpace,
            isGoSpace, goParseFloat, splitSign, breakAt, isDigits, digitsToNat,
            IsValidThresholdKey, AllThresholdKeys, ThresholdCPU, ThresholdRAM]
    · rfl
    · rfl
    · simp [mapInsert]

/-! ## Helper lemmas for order independence of spec parsing -/

/-- Splitting never yields the empty list of parts. -/
theorem splitOnChar_ne_nil (c : Char) : ∀ l : GoString, splitOnChar c l ≠ [] := by
  intro l
  cases l with
  | nil => simp [splitOnChar]
  | cons x xs =>
    cases hs : splitOnChar c xs with
    | nil => simp [splitOnChar, hs]
    | cons p ps => by_cases hx : x = c <;> simp [splitOnChar, hs, hx]

/-- The only string splitting into a single empty part is the empty string. -/
theorem splitOnChar_eq_singleton_nil (c : Char) :
    ∀ l : GoString, splitOnChar c l = [[]] → l = [] := by
  intro l
  cases l with
  | nil => intro _; rfl
  | cons x xs =>
    intro h
    exfalso
    cases hs : splitOnChar c xs with
    | nil => exact splitOnChar_ne_nil c xs hs
    | cons p ps =>
      by_cases hx : x = c
      · simp [splitOnChar, hs, hx] at h
      · simp [splitOnChar, hs, hx] at h

/-- A successful pair fold means every pair parses. -/
theorem parsePairs_ok_forall (l : List GoString) :
    ∀ (m m2 : ThresholdMap), parsePairs m l = .ok m2 →
      ∀ p ∈ l, ∃ kv, parsePair p = .ok kv := by
  induction l with
  | nil => intro m m2 _ p hp; cases hp
  | cons q qs ih =>
    intro m m2 h p hp
    cases hq : parsePair q with
    | error e => simp [parsePairs, hq] at h
    | ok kv =>
      rcases List.mem_cons.mp hp with rfl | hp2
      · exact ⟨kv, hq⟩
      · simp only [parsePairs, hq] at h
        exact ih _ _ h p hp2

/-- When every pair parses, the fold is the insertion of the parsed
key/value list. -/
theorem parsePairs_ok_filterMap (l : List GoString) :
    ∀ m : ThresholdMap, (∀ p ∈ l, ∃ kv, parsePair p = .ok kv) →
      parsePairs m l = .ok (insertPairs m (l.filterMap okKV)) := by
  induction l with
  | nil => intro m _; rfl
  | cons q qs ih =>
    intro m hall
    obtain ⟨kv, hkv⟩ := hall q (List.mem_cons_self _ _)
    have hok : okKV q = Option.some kv := by simp [okKV, hkv, Except.toOption]
    simp only [parsePairs, hkv, List.filterMap_cons, hok]
    exact ih _ (fun p hp => hall p (List.mem_cons_of_mem _ hp))

/-- Inserting a permuted key/value list with pairwise-distinct keys yields
the same map. -/
theorem insertPairs_perm :
    ∀ {kvs1 kvs2 : List (ThresholdKey × Rat)}, kvs1.Perm kvs2 →
      (kvs1.map Prod.fst).Nodup → ∀ m : ThresholdMap,
        insertPairs m kvs1 = insertPairs m kvs2 := by
  intro kvs1 kvs2 hperm
  induction hperm with
  | nil => intro _ m; rfl
  | cons kv h ih =>
    intro hnd m
    show insertPairs (mapInsert m kv.1 kv.2) _ = insertPairs (mapInsert m kv.1 kv.2) _
    refine ih ?_ _
    rw [List.map_cons] at hnd
    exact (List.nodup_cons.mp hnd).2
  | swap kv1 kv2 l =>
    intro hnd m
    show insertPairs (mapInsert (mapInsert m kv2.1 kv2.2) kv1.1 kv1.2) l =
         insertPairs (mapInsert (mapInsert m kv1.1 kv1.2) kv2.1 kv2.2) l
    have hne : kv2.1 ≠ kv1.1 := by
      rw [List.map_cons, List.map_cons] at hnd
      have h1 := (List.nodup_cons.mp hnd).1
      intro he
      exact h1 (he ▸ List.mem_cons_self _ _)
    have hmaps : mapInsert (mapInsert m kv2.1 kv2.2) kv1.1 kv1.2 =
        mapInsert (mapInsert m kv1.1 kv1.2) kv2.1 kv2.2 := by
      have hne2 : kv1.1 ≠ kv2.1 := fun he => hne he.symm
      funext q
      by_cases h1 : q = kv1.1
      · by_cases h2 : q = kv2.1
        · exact absurd (h1.symm.trans h2).symm hne
        · simp [mapInsert, h1, h2, hne2]
      · by_cases h2 : q = kv2.1 <;> simp [mapInsert, h1, h2, hne]
    rw [hmaps]
  | trans h1 h2 ih1 ih2 =>
    intro hnd m
    rw [ih1 hnd m, ih2 ((List.Perm.nodup_iff (h1.map Prod.fst)).mp hnd) m]

/-- A successful `ParseThresholdList` decomposes into two successful map
parses. -/
theorem ParseThresholdList_ok_inv (mx cr : GoString) (out : List Threshold)
    (h : ParseThresholdList mx cr = .ok out) :
    ∃ maxV criticalV, parseThresholdValues mx = .ok maxV
      ∧ parseThresholdValues cr = .ok criticalV := by
  unfold ParseThresholdList at h
  cases hm : parseThresholdValues mx with
  | error e => rw [hm] at h; simp at h
  | ok maxV =>
    cases hc : parseThresholdValues cr with
    | error e => rw [hm, hc] at h; simp at h
    | ok criticalV => exact ⟨maxV, criticalV, rfl, rfl⟩


/-- Order independence of `parseThresholdValues`: permuting the
comma-separated pairs of a successfully parsed spec with pairwise-distinct
keys leaves the parsed map unchanged. -/
theorem parseThresholdValues_perm (s1 s2 : GoString) (m1 : ThresholdMap)
    (h1 : parseThresholdValues s1 = .ok m1)
    (hperm : (splitPairs s1).Perm (splitPairs s2))
    (hnd : (parsedPairKeys s1).Nodup) :
    parseThresholdValues s2 = .ok m1 := by
  unfold parseThresholdValues at h1 ⊢
  by_cases he1 : trimSpace s1 = []
  · rw [if_pos he1] at h1
    have hs1 : splitPairs s1 = [[]] := by simp [splitPairs, he1, splitOnChar]
    rw [hs1] at hperm
    have hs2 : splitPairs s2 = [[]] := (List.singleton_perm.mp hperm).symm
    have he2 : trimSpace s2 = [] := splitOnChar_eq_singleton_nil ',' (trimSpace s2) hs2
    rw [if_pos he2]
    exact h1
  · rw [if_neg he1] at h1
    have hall1 : ∀ p ∈ splitPairs s1, ∃ kv, parsePair p = .ok kv :=
      parsePairs_ok_forall (splitPairs s1) emptyThresholdMap m1 h1
    have hall2 : ∀ p ∈ splitPairs s2, ∃ kv, parsePair p = .ok kv :=
      fun p hp => hall1 p (hperm.mem_iff.mpr hp)
    have he2 : trimSpace s2 ≠ [] := by
      intro he
      have hs2 : splitPairs s2 = [[]] := by simp [splitPairs, he, splitOnChar]
      rw [hs2] at hperm
      have hs1 : splitPairs s1 = [[]] := List.perm_singleton.mp hperm
      exact he1 (splitOnChar_eq_singleton_nil ',' (trimSpace s1) hs1)
    rw [if_neg he2]
    rw [parsePairs_ok_filterMap (splitPairs s1) emptyThresholdMap hall1] at h1
    rw [parsePairs_ok_filterMap (splitPairs s2) emptyThresholdMap hall2]
    rw [← insertPairs_perm (hperm.filterMap okKV) hnd emptyThresholdMap]
    exact h1

/-- C9: parsing of threshold specs is order-independent on the input
key/value pairs (for valid specs, whose pairs parse and have distinct
keys), both at the map level and through `ParseThresholdList`, while the
emitted Thresholds always follow the fixed key enumeration order
CPU, RAM regardless of input order. -/
theorem c9_parse_order_independence :
    (∀ (s1 s2 : GoString) (m1 : ThresholdMap),
        parseThresholdValues s1 = .ok m1 →
        (splitPairs s1).Perm (splitPairs s2) →
        (parsedPairKeys s1).Nodup →
        parseThresholdValues s2 = .ok m1)
    ∧ (∀ (mx cr : GoString) (out : List Threshold),
        ParseThresholdList mx cr = .ok out →
        (out.map Threshold.Key).Sublist AllThresholdKeys)
    ∧ (∀ (mx1 cr1 mx2 cr2 : GoString) (out : List Threshold),
        ParseThresholdList mx1 cr1 = .ok out →
        (splitPairs mx1).Perm (splitPairs mx2) →
        (splitPairs cr1).Perm (splitPairs cr2) →
        (parsedPairKeys mx1).Nodup →
        (parsedPairKeys cr1).Nodup →
        ParseThresholdList mx2 cr2 = .ok out) := by
  refine ⟨parseThresholdValues_perm, ?_, ?_⟩
  · intro mx cr out h
    obtain ⟨maxV, criticalV, hm, hc⟩ := ParseThresholdList_ok_inv mx cr out h
    rw [ParseThresholdList_ok mx cr maxV criticalV hm hc] at h
    simp only [Except.ok.injEq] at h
    subst h
    by_cases h1 : maxV ThresholdCPU = Option.none ∧ criticalV ThresholdCPU = Option.none <;>
      by_cases h2 : maxV ThresholdRAM = Option.none ∧ criticalV ThresholdRAM = Option.none <;>
        simp [h1, h2, AllThresholdKeys]
  · intro mx1 cr1 mx2 cr2 out h hpm hpc hnm hnc
    obtain ⟨maxV, criticalV, hm, hc⟩ := ParseThresholdList_ok_inv mx1 cr1 out h
    have hm2 : parseThresholdValues mx2 = .ok maxV :=
      parseThresholdValues_perm mx1 mx2 maxV hm hpm hnm
    have hc2 : parseThresholdValues cr2 = .ok criticalV :=
      parseThresholdValues_perm cr1 cr2 criticalV hc hpc hnc
    rw [ParseThresholdList_ok mx1 cr1 maxV criticalV hm hc] at h
    rw [ParseThresholdList_ok mx2 cr2 maxV criticalV hm2 hc2]
    exact h

/-- Witness for C9: the spec "CPU=70,RAM:80" and its pair-swapped form
"RAM:80,CPU=70" parse to the same map. -/
theorem c9_parse_order_independence_witness :
    parseThresholdValues "RAM:80,CPU=70".toList =
      .ok (mapInsert (mapInsert emptyThresholdMap ThresholdCPU 70) ThresholdRAM 80) := by
  apply c9_parse_order_independence.1 "CPU=70,RAM:80".toList
  · simp [parseThresholdValues, splitPairs, parsePairs, parsePair, splitOnChar, trimSpace,
          isGoSpace, goParseFloat, splitSign, breakAt, isDigits, digitsToNat,
          IsValidThresholdKey, AllThresholdKeys, ThresholdCPU, ThresholdRAM]
  · decide
  · decide
